import Mathlib

/-!
Verification of the chunked table-transfer program in datatrasnfer.py.

The embedding below follows migrate_table (lines 21-70 of the source) and the
two SQL statements it builds. External effects are made explicit: the target
connection is a pair of row lists (committed rows and the rows inserted in the
currently open transaction), the source cursor is the list of rows it still
has to yield, and the operations that can raise (connect, the catalog query,
fetchmany, each row insert) are driven by an explicit fault model.
-/

namespace DataTransfer

/-- Row values as fetched from the source cursor: one string per column. -/
abbrev Row := List String

/-- State of the target connection: rows already committed, and rows inserted
in the currently open transaction (visible only after a commit). -/
structure Target where
  committed : List Row
  pending : List Row
deriving DecidableEq

/-- Effect of tgt_conn.commit() (line 52): the open transaction is made
permanent. -/
def Target.commitTx (t : Target) : Target :=
  { committed := t.committed ++ t.pending, pending := [] }

/-- Effect of tgt_conn.rollback() (line 56): the open transaction is
discarded. -/
def Target.rollbackTx (t : Target) : Target :=
  { t with pending := [] }

/-- Row-insert loop of one chunk (lines 50-51): each tgt_cur.execute adds one
row to the open transaction; `fail idx = true` means the execute for the
idx-th row of the chunk raises, which aborts the loop. The index starts at 1,
as in enumerate(rows, start=1). Returns the target state and whether every
row was inserted. -/
def insertLoop (t : Target) (fail : Nat → Bool) (idx : Nat) : List Row → Target × Bool
  | [] => (t, true)
  | r :: rs =>
    if fail idx then (t, false)
    else insertLoop { t with pending := t.pending ++ [r] } fail (idx + 1) rs

/-- Processing of one non-empty chunk (lines 49-57): insert every row, then
commit; if any insert raises, roll the whole transaction back. Returns the
target state and whether the chunk was committed. -/
def writeChunk (t : Target) (rows : List Row) (fail : Nat → Bool) : Target × Bool :=
  match insertLoop t fail 1 rows with
  | (t1, true) => (t1.commitTx, true)
  | (t1, false) => (t1.rollbackTx, false)

/-- Observable result of the while-loop of migrate_table: final target state,
final value of the cumulative counter `total`, the chunks fetched in order,
the per-chunk outcome (true = committed, false = rolled back), and whether a
fetchmany call raised mid-stream. -/
structure LoopOut where
  target : Target
  total : Nat
  chunks : List (List Row)
  outcomes : List Bool
  readError : Bool
deriving DecidableEq

/-- While-loop of migrate_table (lines 42-61). `src` is the stream of rows the
source cursor still has to yield; fetchmany(B) returns `src.take B` and the
loop breaks on an empty fetch. `readFailAt = some n` means the n-th fetchmany
call raises (that exception propagates out of the loop to the top-level
handler). `insFails c j = true` means the insert of row j of chunk c raises.
`fetchIdx` is the number of the next fetch and `chunkNum` the current value of
the chunk counter. -/
def runLoop (B : Nat) (readFailAt : Option Nat) (insFails : Nat → Nat → Bool)
    (fetchIdx chunkNum : Nat) (src : List Row) (t : Target) : LoopOut :=
  if readFailAt = some fetchIdx then
    { target := t, total := 0, chunks := [], outcomes := [], readError := true }
  else if hr : src.take B = [] then
    { target := t, total := 0, chunks := [], outcomes := [], readError := false }
  else
    let res := writeChunk t (src.take B) (insFails (chunkNum + 1))
    let rest := runLoop B readFailAt insFails (fetchIdx + 1) (chunkNum + 1) (src.drop B) res.1
    { target := rest.target,
      total := (if res.2 then (src.take B).length else 0) + rest.total,
      chunks := src.take B :: rest.chunks,
      outcomes := res.2 :: rest.outcomes,
      readError := rest.readError }
termination_by src.length
decreasing_by
  have hB : B ≠ 0 := by rintro rfl; simp at hr
  have hs : src ≠ [] := by rintro rfl; simp at hr
  have hpos : 0 < src.length := List.length_pos.mpr hs
  simp only [List.length_drop]
  omega

/-- Fuel-indexed version of runLoop: every iteration of the while-loop
consumes one unit of fuel, and none is returned if the fuel runs out before
the loop exits. Used to state that the loop terminates. -/
def runLoopFuel : Nat → Nat → Option Nat → (Nat → Nat → Bool) → Nat → Nat → List Row → Target → Option LoopOut
  | 0, _, _, _, _, _, _, _ => none
  | fuel + 1, B, readFailAt, insFails, fetchIdx, chunkNum, src, t =>
    if readFailAt = some fetchIdx then
      some { target := t, total := 0, chunks := [], outcomes := [], readError := true }
    else if src.take B = [] then
      some { target := t, total := 0, chunks := [], outcomes := [], readError := false }
    else
      let res := writeChunk t (src.take B) (insFails (chunkNum + 1))
      match runLoopFuel fuel B readFailAt insFails (fetchIdx + 1) (chunkNum + 1) (src.drop B) res.1 with
      | none => none
      | some rest =>
        some { target := rest.target,
               total := (if res.2 then (src.take B).length else 0) + rest.total,
               chunks := src.take B :: rest.chunks,
               outcomes := res.2 :: rest.outcomes,
               readError := rest.readError }

/-- Transfer loop as entered by migrate_table: the first fetch is fetch number
1, the chunk counter starts at 0, and reads do not fail. -/
def migrateLoop (B : Nat) (insFails : Nat → Nat → Bool) (src : List Row) (t : Target) : LoopOut :=
  runLoop B none insFails 1 0 src t

/-- Chunks produced by repeatedly fetching up to B rows from src until a fetch
comes back empty. -/
def chunksOf (B : Nat) (src : List Row) : List (List Row) :=
  if hr : src.take B = [] then []
  else src.take B :: chunksOf B (src.drop B)
termination_by src.length
decreasing_by
  have hB : B ≠ 0 := by rintro rfl; simp at hr
  have hs : src ≠ [] := by rintro rfl; simp at hr
  have hpos : 0 < src.length := List.length_pos.mpr hs
  simp only [List.length_drop]
  omega

/-- Success of the insert loop over a chunk of n rows: no insert among row
indices 1..n raises. -/
def chunkOk (fail : Nat → Bool) (n : Nat) : Bool :=
  (List.range' 1 n).all fun j => !fail j

/-- Per-chunk outcomes of the loop, starting from chunk counter c. -/
def outcomesOf (B : Nat) (insFails : Nat → Nat → Bool) (c : Nat) (src : List Row) : List Bool :=
  if hr : src.take B = [] then []
  else chunkOk (insFails (c + 1)) (src.take B).length :: outcomesOf B insFails (c + 1) (src.drop B)
termination_by src.length
decreasing_by
  have hB : B ≠ 0 := by rintro rfl; simp at hr
  have hs : src ≠ [] := by rintro rfl; simp at hr
  have hpos : 0 < src.length := List.length_pos.mpr hs
  simp only [List.length_drop]
  omega

/-- Rows of the chunks whose commit succeeds, in order, starting from chunk
counter c. -/
def goodRows (B : Nat) (insFails : Nat → Nat → Bool) (c : Nat) (src : List Row) : List Row :=
  if hr : src.take B = [] then []
  else
    (if chunkOk (insFails (c + 1)) (src.take B).length then src.take B else []) ++
      goodRows B insFails (c + 1) (src.drop B)
termination_by src.length
decreasing_by
  have hB : B ≠ 0 := by rintro rfl; simp at hr
  have hs : src ≠ [] := by rintro rfl; simp at hr
  have hpos : 0 < src.length := List.length_pos.mpr hs
  simp only [List.length_drop]
  omega

/-- One row of information_schema.columns, restricted to the fields touched by
the catalog query of lines 31-34. -/
structure CatColumn where
  table_schema : String
  table_name : String
  column_name : String
  ordinal_position : Nat
deriving DecidableEq

/-- Ordering imposed by ORDER BY ordinal_position. -/
def byOrdinal (a b : CatColumn) : Prop :=
  a.ordinal_position ≤ b.ordinal_position

instance : DecidableRel byOrdinal := fun _ _ => Nat.decLe _ _

instance : IsTotal CatColumn byOrdinal := ⟨fun _ _ => Nat.le_total _ _⟩

instance : IsTrans CatColumn byOrdinal := ⟨fun _ _ _ => Nat.le_trans⟩

/-- Result set of the catalog query (lines 31-34): the rows of
information_schema.columns whose table_schema and table_name equal the bound
parameters, ordered by ordinal_position. -/
def introspectRows (catalog : List CatColumn) (schema table : String) : List CatColumn :=
  List.insertionSort byOrdinal
    (catalog.filter fun c => c.table_schema == schema && c.table_name == table)

/-- Column list computed on line 35: the column_name field of each result row,
in result order. -/
def introspectColumns (catalog : List CatColumn) (schema table : String) : List String :=
  (introspectRows catalog schema table).map fun c => c.column_name

/-- Join cols_str of line 36. -/
def colsStr (columns : List String) : String :=
  String.intercalate ", " columns

/-- Join placeholders of line 37: one %s per column. -/
def placeholders (n : Nat) : String :=
  String.intercalate ", " (List.replicate n "%s")

/-- Statement text of the catalog query (lines 31-34); the schema and table
names are not part of the text, they are bound to the two %s markers. -/
def catalogQuerySql : String :=
  "SELECT column_name FROM information_schema.columns WHERE table_schema = %s AND table_name = %s ORDER BY ordinal_position"

/-- Execute call for the catalog query: statement text plus bound parameter
list, as passed on lines 31-34. -/
def catalogQueryCall (schema table : String) : String × List String :=
  (catalogQuerySql, [schema, table])

/-- Statement text of the streaming select built on line 39. -/
def selectSql (schema table : String) (columns : List String) : String :=
  "SELECT " ++ colsStr columns ++ " FROM \"" ++ schema ++ "\".\"" ++ table ++ "\""

/-- Statement text insert_sql built on line 48. -/
def insertSql (schema table : String) (columns : List String) : String :=
  "INSERT INTO \"" ++ schema ++ "\".\"" ++ table ++ "\" (" ++ colsStr columns ++ ") VALUES (" ++ placeholders columns.length ++ ")"

/-- Execute call for one row insert (line 51): statement text plus the row as
the bound parameter list. -/
def insertCall (schema table : String) (columns : List String) (row : Row) : String × List String :=
  (insertSql schema table columns, row)

/-- Modelled from the spec (section 9, identifier quoting): structural quoting
of a single identifier. -/
def quoteIdent (s : String) : String :=
  "\"" ++ s ++ "\""

/-- Modelled from the spec (section 9, identifier quoting): the streaming
select as it would read if every interpolated identifier, column names
included, were structurally quoted. Defined only to compare the spec
requirement with the text the code builds. -/
def selectSqlSpecQuoted (schema table : String) (columns : List String) : String :=
  "SELECT " ++ String.intercalate ", " (columns.map quoteIdent) ++ " FROM " ++ quoteIdent schema ++ "." ++ quoteIdent table

/-- Fault model for one run of migrate_table: which of the external operations
raise. -/
structure Faults where
  srcConnFails : Bool
  tgtConnFails : Bool
  introFails : Bool
  readFailAt : Option Nat
  insFails : Nat → Nat → Bool

/-- Run of migrate_table with every external operation succeeding. -/
def noFaults : Faults :=
  { srcConnFails := false, tgtConnFails := false, introFails := false,
    readFailAt := none, insFails := fun _ _ => false }

/-- Observable outcome of one run of migrate_table: the process exit code (0
means the function returned normally and the script ends with status zero),
the connection and cursor handles opened and closed in order, the operation
whose exception reached the top-level handler (if any), the number of chunks
attempted, of commit and of rollback operations on the target, the final
cumulative counter, and the final target state. -/
structure Outcome where
  exitCode : Nat
  opened : List String
  closed : List String
  errorStage : Option String
  chunksAttempted : Nat
  commits : Nat
  rollbacks : Nat
  total : Nat
  target : Target
deriving DecidableEq

/-- Handles opened once both connects and both cursor() calls of lines 26-29
succeeded, in acquisition order. -/
def allHandles : List String :=
  ["src_conn", "tgt_conn", "src_cur", "tgt_cur"]

/-- Close calls issued on the normal exit path, in source order (lines
64-67). -/
def closeOrder : List String :=
  ["src_cur", "src_conn", "tgt_cur", "tgt_conn"]

/-- Model of migrate_table (lines 21-70). The whole body runs inside one try
block whose handler logs and calls sys.exit(1) without closing anything, so
every raising operation produces exit code 1 and an empty close list. The
branches, in source order: the two connects (lines 26-27; cursor creation on
lines 28-29 does not raise), the catalog query (lines 31-34), the streaming
select (line 39) - which raises exactly when the named source table does not
exist, that is when no catalog row matches, since an existing table has at
least one catalog row - then the transfer loop, in which a fetchmany failure
propagates to the handler while insert failures are contained per chunk.
Only when the loop finishes normally are the four handles closed (lines
64-67) and the function returns, ending the process with status zero. -/
def migrateTable (f : Faults) (catalog : List CatColumn)
    (srcSchema srcTable tgtSchema tgtTable : String) (B : Nat) (srcRows : List Row) : Outcome :=
  if f.srcConnFails then
    { exitCode := 1, opened := [], closed := [], errorStage := some "source_connect",
      chunksAttempted := 0, commits := 0, rollbacks := 0, total := 0,
      target := { committed := [], pending := [] } }
  else if f.tgtConnFails then
    { exitCode := 1, opened := ["src_conn"], closed := [], errorStage := some "target_connect",
      chunksAttempted := 0, commits := 0, rollbacks := 0, total := 0,
      target := { committed := [], pending := [] } }
  else if f.introFails then
    { exitCode := 1, opened := allHandles, closed := [], errorStage := some "introspection_query",
      chunksAttempted := 0, commits := 0, rollbacks := 0, total := 0,
      target := { committed := [], pending := [] } }
  else if introspectColumns catalog srcSchema srcTable = [] then
    { exitCode := 1, opened := allHandles, closed := [], errorStage := some "streaming_select",
      chunksAttempted := 0, commits := 0, rollbacks := 0, total := 0,
      target := { committed := [], pending := [] } }
  else
    let lo := runLoop B f.readFailAt f.insFails 1 0 srcRows { committed := [], pending := [] }
    if lo.readError then
      { exitCode := 1, opened := allHandles, closed := [], errorStage := some "fetch",
        chunksAttempted := lo.chunks.length, commits := lo.outcomes.count true,
        rollbacks := lo.outcomes.count false, total := lo.total, target := lo.target }
    else
      { exitCode := 0, opened := allHandles, closed := closeOrder, errorStage := none,
        chunksAttempted := lo.chunks.length, commits := lo.outcomes.count true,
        rollbacks := lo.outcomes.count false, total := lo.total, target := lo.target }

/-- Catalog with a single table s.t having one column, used as a concrete
instance in witnesses. -/
def demoCatalog : List CatColumn :=
  [{ table_schema := "s", table_name := "t", column_name := "id", ordinal_position := 1 }]

/-!
Helper lemmas about the embedded operations.
-/

theorem insertLoop_committed (fail : Nat → Bool) :
    ∀ (rows : List Row) (t : Target) (idx : Nat),
      (insertLoop t fail idx rows).1.committed = t.committed := by
  intro rows
  induction rows with
  | nil => intro t idx; rfl
  | cons r rs ih =>
    intro t idx
    cases hf : fail idx with
    | true => simp [insertLoop, hf]
    | false => simp [insertLoop, hf, ih]

theorem insertLoop_ok (fail : Nat → Bool) :
    ∀ (rows : List Row) (t : Target) (idx : Nat),
      (insertLoop t fail idx rows).2 = (List.range' idx rows.length).all fun j => !fail j := by
  intro rows
  induction rows with
  | nil => intro t idx; rfl
  | cons r rs ih =>
    intro t idx
    cases hf : fail idx with
    | true => simp [insertLoop, hf, List.range'_succ]
    | false => simp [insertLoop, hf, ih, List.range'_succ]

theorem insertLoop_pending_ok (fail : Nat → Bool) :
    ∀ (rows : List Row) (t : Target) (idx : Nat),
      (insertLoop t fail idx rows).2 = true →
      (insertLoop t fail idx rows).1.pending = t.pending ++ rows := by
  intro rows
  induction rows with
  | nil => intro t idx _; simp [insertLoop]
  | cons r rs ih =>
    intro t idx hok
    cases hf : fail idx with
    | true => simp [insertLoop, hf] at hok
    | false =>
      simp only [insertLoop, hf] at hok ⊢
      simp only [Bool.false_eq_true, if_false] at hok ⊢
      rw [ih _ _ hok]
      simp

theorem writeChunk_eq (t : Target) (rows : List Row) (fail : Nat → Bool)
    (hp : t.pending = []) :
    writeChunk t rows fail =
      ({ committed := t.committed ++ (if chunkOk fail rows.length then rows else []),
         pending := [] },
       chunkOk fail rows.length) := by
  have hok : (insertLoop t fail 1 rows).2 = chunkOk fail rows.length :=
    insertLoop_ok fail rows t 1
  have hcom : (insertLoop t fail 1 rows).1.committed = t.committed :=
    insertLoop_committed fail rows t 1
  rw [writeChunk]
  rcases hi : insertLoop t fail 1 rows with ⟨t1, ok⟩
  rw [hi] at hok hcom
  dsimp only at hok hcom
  cases ok with
  | true =>
    have hpen : t1.pending = t.pending ++ rows := by
      have h2 := insertLoop_pending_ok fail rows t 1
      rw [hi] at h2
      exact h2 rfl
    rw [← hok]
    simp [Target.commitTx, hcom, hpen, hp]
  | false =>
    rw [← hok]
    simp [Target.rollbackTx, hcom]

theorem chunksOf_nil {B : Nat} {src : List Row} (hr : src.take B = []) :
    chunksOf B src = [] := by
  rw [chunksOf, dif_pos hr]

theorem chunksOf_cons {B : Nat} {src : List Row} (hr : src.take B ≠ []) :
    chunksOf B src = src.take B :: chunksOf B (src.drop B) := by
  rw [chunksOf, dif_neg hr]

theorem outcomesOf_nil {B : Nat} {src : List Row} (insFails : Nat → Nat → Bool) (c : Nat)
    (hr : src.take B = []) : outcomesOf B insFails c src = [] := by
  rw [outcomesOf, dif_pos hr]

theorem outcomesOf_cons {B : Nat} {src : List Row} (insFails : Nat → Nat → Bool) (c : Nat)
    (hr : src.take B ≠ []) :
    outcomesOf B insFails c src =
      chunkOk (insFails (c + 1)) (src.take B).length :: outcomesOf B insFails (c + 1) (src.drop B) := by
  rw [outcomesOf, dif_neg hr]

theorem goodRows_nil {B : Nat} {src : List Row} (insFails : Nat → Nat → Bool) (c : Nat)
    (hr : src.take B = []) : goodRows B insFails c src = [] := by
  rw [goodRows, dif_pos hr]

theorem goodRows_cons {B : Nat} {src : List Row} (insFails : Nat → Nat → Bool) (c : Nat)
    (hr : src.take B ≠ []) :
    goodRows B insFails c src =
      (if chunkOk (insFails (c + 1)) (src.take B).length then src.take B else []) ++
        goodRows B insFails (c + 1) (src.drop B) := by
  rw [goodRows, dif_neg hr]

theorem runLoop_none_eq (B : Nat) (insFails : Nat → Nat → Bool) (src : List Row)
    (i c : Nat) (t : Target) (hp : t.pending = []) :
    runLoop B none insFails i c src t =
      { target := { committed := t.committed ++ goodRows B insFails c src, pending := [] },
        total := (goodRows B insFails c src).length,
        chunks := chunksOf B src,
        outcomes := outcomesOf B insFails c src,
        readError := false } := by
  have hni : (none : Option Nat) ≠ some i := by simp
  rw [runLoop, if_neg hni]
  by_cases hr : src.take B = []
  · rw [dif_pos hr, chunksOf_nil hr, outcomesOf_nil insFails c hr, goodRows_nil insFails c hr]
    rcases t with ⟨tc, tp⟩
    simp only at hp
    subst hp
    simp
  · have hdrop : (src.drop B).length < src.length := by
      have hB : B ≠ 0 := by rintro rfl; simp at hr
      have hs : src ≠ [] := by rintro rfl; simp at hr
      have hpos : 0 < src.length := List.length_pos.mpr hs
      simp only [List.length_drop]
      omega
    rw [dif_neg hr]
    have hw := writeChunk_eq t (src.take B) (insFails (c + 1)) hp
    have ih := runLoop_none_eq B insFails (src.drop B) (i + 1) (c + 1)
      (writeChunk t (src.take B) (insFails (c + 1))).1 (by rw [hw])
    dsimp only
    rw [ih, hw]
    rw [chunksOf_cons hr, outcomesOf_cons insFails c hr, goodRows_cons insFails c hr]
    dsimp only
    cases hok : chunkOk (insFails (c + 1)) (src.take B).length <;>
      simp [hok, List.append_assoc]
termination_by src.length
decreasing_by exact hdrop

theorem take_ne_nil_facts {B : Nat} {src : List Row} (hr : src.take B ≠ []) :
    B ≠ 0 ∧ src ≠ [] ∧ 0 < src.length := by
  have hB : B ≠ 0 := by rintro rfl; simp at hr
  have hs : src ≠ [] := by rintro rfl; simp at hr
  exact ⟨hB, hs, List.length_pos.mpr hs⟩

theorem chunksOf_length (B : Nat) (hB : 1 ≤ B) (src : List Row) :
    (chunksOf B src).length = (src.length + B - 1) / B := by
  by_cases hr : src.take B = []
  · rw [chunksOf_nil hr]
    have hs : src = [] := by
      rcases List.take_eq_nil_iff.mp hr with h | h
      · omega
      · exact h
    subst hs
    simp [Nat.div_eq_of_lt (by omega : B - 1 < B)]
  · obtain ⟨hB0, hs, hpos⟩ := take_ne_nil_facts hr
    have hdrop : (src.drop B).length < src.length := by
      simp only [List.length_drop]; omega
    rw [chunksOf_cons hr]
    have ih := chunksOf_length B hB (src.drop B)
    simp only [List.length_cons, ih, List.length_drop]
    have h2 : (src.length + B - 1) / B = (src.length - 1) / B + 1 := by
      have he : src.length + B - 1 = src.length - 1 + B := by omega
      rw [he, Nat.add_div_right _ (by omega : 0 < B)]
    rcases Nat.le_total B src.length with hle | hge
    · have h1 : (src.length - B + B - 1) / B = (src.length - 1) / B := by
        have he : src.length - B + B - 1 = src.length - 1 := by omega
        rw [he]
      rw [h1, h2]
    · have h1 : (src.length - B + B - 1) / B = 0 := by
        have he : src.length - B = 0 := by omega
        rw [he]
        exact Nat.div_eq_of_lt (by omega)
      have h3 : (src.length - 1) / B = 0 := Nat.div_eq_of_lt (by omega)
      rw [h1, h2, h3]
termination_by src.length
decreasing_by exact hdrop

theorem chunksOf_mem (B : Nat) (src : List Row) :
    ∀ rows ∈ chunksOf B src, rows ≠ [] ∧ rows.length ≤ B := by
  by_cases hr : src.take B = []
  · rw [chunksOf_nil hr]; intro rows h; simp at h
  · obtain ⟨hB0, hs, hpos⟩ := take_ne_nil_facts hr
    have hdrop : (src.drop B).length < src.length := by
      simp only [List.length_drop]; omega
    rw [chunksOf_cons hr]
    intro rows h
    rcases List.mem_cons.mp h with h1 | h1
    · subst h1
      refine ⟨hr, ?_⟩
      rw [List.length_take]
      omega
    · exact chunksOf_mem B (src.drop B) rows h1
termination_by src.length
decreasing_by exact hdrop

theorem chunksOf_eq_nil_iff {B : Nat} {src : List Row} :
    chunksOf B src = [] ↔ src.take B = [] := by
  by_cases hr : src.take B = []
  · simp [chunksOf_nil hr, hr]
  · simp [chunksOf_cons hr, hr]

theorem chunksOf_dropLast (B : Nat) (hB : 1 ≤ B) (src : List Row) :
    ∀ rows ∈ (chunksOf B src).dropLast, rows.length = B := by
  by_cases hr : src.take B = []
  · rw [chunksOf_nil hr]; intro rows h; simp at h
  · obtain ⟨hB0, hs, hpos⟩ := take_ne_nil_facts hr
    have hdrop : (src.drop B).length < src.length := by
      simp only [List.length_drop]; omega
    rw [chunksOf_cons hr]
    by_cases hrest : chunksOf B (src.drop B) = []
    · rw [hrest]
      intro rows h
      simp at h
    · rw [List.dropLast_cons_of_ne_nil hrest]
      intro rows h
      rcases List.mem_cons.mp h with h1 | h1
      · subst h1
        have htd : (src.drop B).take B ≠ [] := fun hh => hrest (chunksOf_eq_nil_iff.mpr hh)
        have hd : src.drop B ≠ [] := by
          intro hh; rw [hh] at htd; simp at htd
        have hlb : B < src.length := by
          have := List.drop_eq_nil_iff.not.mp hd
          omega
        rw [List.length_take]
        omega
      · exact chunksOf_dropLast B hB (src.drop B) rows h1
termination_by src.length
decreasing_by exact hdrop

theorem chunksOf_getLast (B : Nat) (hB : 1 ≤ B) (src : List Row) (hs : src ≠ []) :
    ∃ lastRows, (chunksOf B src).getLast? = some lastRows ∧
      lastRows.length = if src.length % B = 0 then B else src.length % B := by
  have hpos : 0 < src.length := List.length_pos.mpr hs
  have hr : src.take B ≠ [] := by
    intro hh
    rcases List.take_eq_nil_iff.mp hh with h | h
    · omega
    · exact hs h
  have hdrop : (src.drop B).length < src.length := by
    simp only [List.length_drop]; omega
  rw [chunksOf_cons hr]
  by_cases hrest : chunksOf B (src.drop B) = []
  · have htd : (src.drop B).take B = [] := by
      by_contra hh
      rw [chunksOf_cons hh] at hrest
      simp at hrest
    have hd : src.drop B = [] := by
      rcases List.take_eq_nil_iff.mp htd with h | h
      · omega
      · exact h
    have hlen : src.length ≤ B := List.drop_eq_nil_iff.mp hd
    refine ⟨src.take B, by rw [hrest]; rfl, ?_⟩
    rw [List.length_take]
    rcases Nat.lt_or_ge src.length B with hlt | hge
    · rw [if_neg (by rw [Nat.mod_eq_of_lt hlt]; omega)]
      rw [Nat.mod_eq_of_lt hlt]
      omega
    · have : src.length = B := by omega
      rw [this, Nat.mod_self, if_pos rfl]
      omega
  · have hd : src.drop B ≠ [] := by
      intro hh
      apply hrest
      apply chunksOf_eq_nil_iff.mpr
      rw [hh]
      simp
    have hlb : B < src.length := by
      have := List.drop_eq_nil_iff.not.mp hd
      omega
    obtain ⟨lastRows, hl, hlen⟩ := chunksOf_getLast B hB (src.drop B) hd
    refine ⟨lastRows, ?_, ?_⟩
    · rcases he : chunksOf B (src.drop B) with _ | ⟨r1, rest1⟩
      · exact absurd he hrest
      · rw [he] at hl
        rw [List.getLast?_cons_cons, hl]
    · have hmod : (src.drop B).length % B = src.length % B := by
        rw [List.length_drop]
        have h2 : src.length = src.length - B + B := by omega
        conv_rhs => rw [h2]
        rw [Nat.add_mod_right]
      rw [hmod] at hlen
      exact hlen
termination_by src.length
decreasing_by exact hdrop

theorem chunkOk_noFail (n : Nat) : chunkOk (fun _ => false) n = true := by
  simp [chunkOk]

theorem goodRows_noFail (B : Nat) (hB : 1 ≤ B) (src : List Row) (c : Nat) :
    goodRows B (fun _ _ => false) c src = src := by
  by_cases hr : src.take B = []
  · rw [goodRows_nil _ _ hr]
    rcases List.take_eq_nil_iff.mp hr with h | h
    · omega
    · exact h.symm
  · obtain ⟨hB0, hs, hpos⟩ := take_ne_nil_facts hr
    have hdrop : (src.drop B).length < src.length := by
      simp only [List.length_drop]; omega
    rw [goodRows_cons _ _ hr, chunkOk_noFail, if_pos rfl,
      goodRows_noFail B hB (src.drop B) (c + 1), List.take_append_drop]
termination_by src.length
decreasing_by exact hdrop

theorem outcomesOf_noFail (B : Nat) (src : List Row) (c : Nat) :
    outcomesOf B (fun _ _ => false) c src = List.replicate (chunksOf B src).length true := by
  by_cases hr : src.take B = []
  · rw [outcomesOf_nil _ _ hr, chunksOf_nil hr]
    rfl
  · obtain ⟨hB0, hs, hpos⟩ := take_ne_nil_facts hr
    have hdrop : (src.drop B).length < src.length := by
      simp only [List.length_drop]; omega
    rw [outcomesOf_cons _ _ hr, chunksOf_cons hr, chunkOk_noFail,
      outcomesOf_noFail B (src.drop B) (c + 1)]
    simp [List.replicate_succ]
termination_by src.length
decreasing_by exact hdrop

theorem outcomesOf_length (B : Nat) (insFails : Nat → Nat → Bool) (c : Nat) (src : List Row) :
    (outcomesOf B insFails c src).length = (chunksOf B src).length := by
  by_cases hr : src.take B = []
  · rw [outcomesOf_nil _ _ hr, chunksOf_nil hr]
    rfl
  · obtain ⟨hB0, hs, hpos⟩ := take_ne_nil_facts hr
    have hdrop : (src.drop B).length < src.length := by
      simp only [List.length_drop]; omega
    rw [outcomesOf_cons _ _ hr, chunksOf_cons hr]
    simp [outcomesOf_length B insFails (c + 1) (src.drop B)]
termination_by src.length
decreasing_by exact hdrop

theorem runLoopFuel_sufficient :
    ∀ (fuel B : Nat) (readFailAt : Option Nat) (insFails : Nat → Nat → Bool)
      (i c : Nat) (src : List Row) (t : Target), src.length < fuel →
      runLoopFuel fuel B readFailAt insFails i c src t =
        some (runLoop B readFailAt insFails i c src t) := by
  intro fuel
  induction fuel with
  | zero => intro B rf insFails i c src t h; omega
  | succ fuel ih =>
    intro B rf insFails i c src t h
    rw [runLoopFuel, runLoop]
    by_cases hrf : rf = some i
    · rw [if_pos hrf, if_pos hrf]
    · rw [if_neg hrf, if_neg hrf]
      by_cases hr : src.take B = []
      · rw [if_pos hr, dif_pos hr]
      · obtain ⟨hB0, hs, hpos⟩ := take_ne_nil_facts hr
        rw [if_neg hr, dif_neg hr]
        dsimp only
        rw [ih B rf insFails (i + 1) (c + 1) (src.drop B) _
          (by simp only [List.length_drop]; omega)]

theorem chunkOk_true_of_none (fail : Nat → Bool) (h : ∀ j, fail j = false) (n : Nat) :
    chunkOk fail n = true := by
  simp [chunkOk, h]

theorem chunkOk_false_of_fail1 (fail : Nat → Bool) (h : fail 1 = true) (n : Nat)
    (hn : 1 ≤ n) : chunkOk fail n = false := by
  apply List.all_eq_false.mpr
  refine ⟨1, ?_, by simp [h]⟩
  rw [List.mem_range'_1]
  omega

theorem outcomesOf_all_true (B : Nat) (insFails : Nat → Nat → Bool) (k : Nat)
    (hk : ∀ c j, insFails c j = true → c = k) (src : List Row) (c : Nat) (hc : k ≤ c) :
    outcomesOf B insFails c src = List.replicate (chunksOf B src).length true := by
  by_cases hr : src.take B = []
  · rw [outcomesOf_nil _ _ hr, chunksOf_nil hr]
    rfl
  · obtain ⟨hB0, hs, hpos⟩ := take_ne_nil_facts hr
    have hdrop : (src.drop B).length < src.length := by
      simp only [List.length_drop]; omega
    have hnone : ∀ j, insFails (c + 1) j = false := by
      intro j
      cases hf : insFails (c + 1) j with
      | false => rfl
      | true => exact absurd (hk _ _ hf) (by omega)
    rw [outcomesOf_cons _ _ hr, chunksOf_cons hr, chunkOk_true_of_none _ hnone,
      outcomesOf_all_true B insFails k hk (src.drop B) (c + 1) (by omega)]
    simp [List.replicate_succ]
termination_by src.length
decreasing_by exact hdrop

theorem outcomesOf_count_true (B : Nat) (insFails : Nat → Nat → Bool) (k : Nat)
    (hk : ∀ c j, insFails c j = true → c = k) (hfail : insFails k 1 = true)
    (src : List Row) (c : Nat) (hc : c < k) (hcN : k ≤ c + (chunksOf B src).length) :
    (outcomesOf B insFails c src).count true + 1 = (chunksOf B src).length := by
  by_cases hr : src.take B = []
  · rw [chunksOf_nil hr] at hcN
    simp only [List.length_nil] at hcN
    omega
  · obtain ⟨hB0, hs, hpos⟩ := take_ne_nil_facts hr
    have hdrop : (src.drop B).length < src.length := by
      simp only [List.length_drop]; omega
    have hlen1 : 1 ≤ (src.take B).length := by
      rcases List.eq_nil_or_concat (src.take B) with h | h
      · exact absurd h hr
      · have := List.length_pos.mpr hr
        omega
    rw [outcomesOf_cons _ _ hr, chunksOf_cons hr]
    rw [chunksOf_cons hr] at hcN
    by_cases hck : c + 1 = k
    · subst hck
      rw [chunkOk_false_of_fail1 _ hfail _ hlen1]
      rw [outcomesOf_all_true B insFails (c + 1) hk (src.drop B) (c + 1) (by omega)]
      simp [List.count_replicate_self, List.count_cons]
    · have hnone : ∀ j, insFails (c + 1) j = false := by
        intro j
        cases hf : insFails (c + 1) j with
        | false => rfl
        | true => exact absurd (hk _ _ hf) hck
      rw [chunkOk_true_of_none _ hnone]
      simp only [List.length_cons] at hcN
      have hc2 : c + 1 < k := by omega
      have hcN2 : k ≤ (c + 1) + (chunksOf B (src.drop B)).length := by omega
      have ih := outcomesOf_count_true B insFails k hk hfail (src.drop B) (c + 1) hc2 hcN2
      simp [List.count_cons]
      omega
termination_by src.length
decreasing_by exact hdrop

theorem bool_count_sum (l : List Bool) : l.count true + l.count false = l.length := by
  induction l with
  | nil => rfl
  | cons b t ih =>
    cases b <;> simp [List.count_cons] <;> omega

theorem sorted_perm_eq_of_nodup_keys :
    ∀ (l1 l2 : List CatColumn), l1.Perm l2 → l1.Pairwise byOrdinal → l2.Pairwise byOrdinal →
      (l1.map fun c => c.ordinal_position).Nodup → l1 = l2 := by
  intro l1
  induction l1 with
  | nil =>
    intro l2 hp _ _ _
    exact (hp.nil_eq).symm ▸ rfl
  | cons a t1 ih =>
    intro l2 hp h1 h2 hn
    rcases l2 with _ | ⟨b, t2⟩
    · exact absurd hp.symm.nil_eq (by simp)
    by_cases hab : a = b
    · subst hab
      have hpt : t1.Perm t2 := hp.cons_inv
      have h1t := (List.pairwise_cons.mp h1).2
      have h2t := (List.pairwise_cons.mp h2).2
      have hnt : (t1.map fun c => c.ordinal_position).Nodup := by
        rw [List.map_cons] at hn
        exact (List.nodup_cons.mp hn).2
      rw [ih t2 hpt h1t h2t hnt]
    · exfalso
      have hat2 : a ∈ t2 := by
        have : a ∈ b :: t2 := hp.mem_iff.mp (List.mem_cons_self a t1)
        rcases List.mem_cons.mp this with h | h
        · exact absurd h hab
        · exact h
      have hbt1 : b ∈ t1 := by
        have : b ∈ a :: t1 := hp.mem_iff.mpr (List.mem_cons_self b t2)
        rcases List.mem_cons.mp this with h | h
        · exact absurd h.symm hab
        · exact h
      have hle1 : byOrdinal a b := (List.pairwise_cons.mp h1).1 b hbt1
      have hle2 : byOrdinal b a := (List.pairwise_cons.mp h2).1 a hat2
      have heq : a.ordinal_position = b.ordinal_position := Nat.le_antisymm hle1 hle2
      rw [List.map_cons] at hn
      have hnotin := (List.nodup_cons.mp hn).1
      exact hnotin (heq ▸ List.mem_map_of_mem (fun c => c.ordinal_position) hbt1)

theorem append_merge {a b c : String} (h : a ++ b = c) (z : String) :
    a ++ (b ++ z) = c ++ z := by
  rw [← h]
  exact (String.append_assoc a b z).symm

theorem selectSql_quoted (schema table : String) (columns : List String) :
    selectSql schema table columns =
      "SELECT " ++ colsStr columns ++ " FROM " ++ quoteIdent schema ++ "." ++ quoteIdent table := by
  unfold selectSql quoteIdent
  simp only [String.append_assoc]
  rw [append_merge (show (" FROM " ++ "\"" : String) = " FROM \"" from rfl)]
  rw [append_merge (show ("\"" ++ "." : String) = "\"." from rfl)]
  rw [append_merge (show ("\"." ++ "\"" : String) = "\".\"" from rfl)]

theorem insertSql_quoted (schema table : String) (columns : List String) :
    insertSql schema table columns =
      "INSERT INTO " ++ quoteIdent schema ++ "." ++ quoteIdent table ++ " (" ++ colsStr columns ++ ") VALUES (" ++ placeholders columns.length ++ ")" := by
  unfold insertSql quoteIdent
  simp only [String.append_assoc]
  rw [append_merge (show ("INSERT INTO " ++ "\"" : String) = "INSERT INTO \"" from rfl)]
  rw [append_merge (show ("\"" ++ "." : String) = "\"." from rfl)]
  rw [append_merge (show ("\"." ++ "\"" : String) = "\".\"" from rfl)]
  rw [append_merge (show ("\"" ++ " (" : String) = "\" (" from rfl)]

/-!
Claim theorems.
-/

/-- Claim C1: for every batch size B with B ≥ 1 and every source table with R
rows, a run of migrate_table in which no connection, read or insert operation
fails commits exactly the R source rows into the target, attempts exactly
ceil(R/B) batches, all of which are committed, every batch except possibly the
last has exactly B rows, and the last batch has R mod B rows (or B rows when R
mod B = 0 and R > 0); the reported total is R and the process exits with
status zero. -/
theorem fault_free_run_batches (B : Nat) (hB : 1 ≤ B) (src : List Row)
    (cat : List CatColumn) (ss st ts tt : String)
    (htable : introspectColumns cat ss st ≠ []) :
    (migrateLoop B (fun _ _ => false) src { committed := [], pending := [] }).target.committed = src ∧
    (migrateLoop B (fun _ _ => false) src { committed := [], pending := [] }).total = src.length ∧
    (migrateLoop B (fun _ _ => false) src { committed := [], pending := [] }).chunks.length
      = (src.length + B - 1) / B ∧
    (migrateLoop B (fun _ _ => false) src { committed := [], pending := [] }).outcomes
      = List.replicate ((src.length + B - 1) / B) true ∧
    (∀ rows ∈ (migrateLoop B (fun _ _ => false) src { committed := [], pending := [] }).chunks.dropLast,
      rows.length = B) ∧
    (src ≠ [] → ∃ lastRows,
      (migrateLoop B (fun _ _ => false) src { committed := [], pending := [] }).chunks.getLast? = some lastRows ∧
      lastRows.length = if src.length % B = 0 then B else src.length % B) ∧
    (migrateTable noFaults cat ss st ts tt B src).exitCode = 0 ∧
    (migrateTable noFaults cat ss st ts tt B src).total = src.length ∧
    (migrateTable noFaults cat ss st ts tt B src).commits = (src.length + B - 1) / B := by
  have hloop := runLoop_none_eq B (fun _ _ => false) src 1 0 { committed := [], pending := [] } rfl
  have hg := goodRows_noFail B hB src 0
  have ho := outcomesOf_noFail B src 0
  have hN := chunksOf_length B hB src
  have hml : migrateLoop B (fun _ _ => false) src { committed := [], pending := [] } =
      { target := { committed := goodRows B (fun _ _ => false) 0 src, pending := [] },
        total := (goodRows B (fun _ _ => false) 0 src).length,
        chunks := chunksOf B src,
        outcomes := outcomesOf B (fun _ _ => false) 0 src,
        readError := false } := by
    rw [migrateLoop, hloop]
    simp
  have hmt : migrateTable noFaults cat ss st ts tt B src =
      { exitCode := 0, opened := allHandles, closed := closeOrder, errorStage := none,
        chunksAttempted := (chunksOf B src).length,
        commits := (outcomesOf B (fun _ _ => false) 0 src).count true,
        rollbacks := (outcomesOf B (fun _ _ => false) 0 src).count false,
        total := (goodRows B (fun _ _ => false) 0 src).length,
        target := { committed := goodRows B (fun _ _ => false) 0 src, pending := [] } } := by
    rw [migrateTable]
    simp only [noFaults]
    rw [if_neg (by simp), if_neg (by simp), if_neg (by simp), if_neg htable]
    rw [hloop]
    simp
  refine ⟨?_, ?_, ?_, ?_, ?_, ?_, ?_, ?_, ?_⟩
  · rw [hml]; exact hg
  · rw [hml]
    show (goodRows B (fun _ _ => false) 0 src).length = src.length
    rw [hg]
  · rw [hml]; exact hN
  · rw [hml]
    show outcomesOf B (fun _ _ => false) 0 src = List.replicate ((src.length + B - 1) / B) true
    rw [ho, hN]
  · rw [hml]
    exact chunksOf_dropLast B hB src
  · intro hs
    rw [hml]
    exact chunksOf_getLast B hB src hs
  · rw [hmt]
  · rw [hmt]
    show (goodRows B (fun _ _ => false) 0 src).length = src.length
    rw [hg]
  · rw [hmt]
    show (outcomesOf B (fun _ _ => false) 0 src).count true = (src.length + B - 1) / B
    rw [ho, List.count_replicate_self, hN]

/-- Witness for fault_free_run_batches: batch size 2 over five rows gives a
total of 5, three batches and three commits. -/
theorem fault_free_run_batches_witness :
    (migrateLoop 2 (fun _ _ => false) [["a"], ["b"], ["c"], ["d"], ["e"]]
      { committed := [], pending := [] }).total = 5 ∧
    (migrateTable noFaults demoCatalog "s" "t" "s" "t2" 2
      [["a"], ["b"], ["c"], ["d"], ["e"]]).commits = 3 := by
  have h := fault_free_run_batches 2 (by decide) [["a"], ["b"], ["c"], ["d"], ["e"]]
    demoCatalog "s" "t" "s" "t2" (by decide)
  exact ⟨h.2.1, h.2.2.2.2.2.2.2.2⟩

/-- Claim C2: a batch is all-or-nothing: if the insert of any row of the batch
fails, the writer rolls the transaction back and zero rows of that batch are
left committed in the target; the batch is committed as a unit only when every
one of its rows has been inserted, in which case exactly the whole batch is
appended to the committed rows. -/
theorem batch_all_or_nothing (t : Target) (rows : List Row) (fail : Nat → Bool)
    (hp : t.pending = []) :
    ((∃ j, 1 ≤ j ∧ j ≤ rows.length ∧ fail j = true) →
      (writeChunk t rows fail).1.committed = t.committed ∧
      (writeChunk t rows fail).2 = false) ∧
    ((writeChunk t rows fail).2 = true →
      (writeChunk t rows fail).1.committed = t.committed ++ rows) := by
  have hw := writeChunk_eq t rows fail hp
  constructor
  · rintro ⟨j, hj1, hj2, hjf⟩
    have hok : chunkOk fail rows.length = false := by
      apply List.all_eq_false.mpr
      refine ⟨j, ?_, by simp [hjf]⟩
      rw [List.mem_range'_1]
      omega
    rw [hw, hok]
    simp
  · intro hok2
    rw [hw] at hok2
    have hok : chunkOk fail rows.length = true := hok2
    rw [hw, hok]
    simp

/-- Witness for batch_all_or_nothing: a two-row batch whose second insert
fails leaves the previously committed content unchanged. -/
theorem batch_all_or_nothing_witness :
    (writeChunk { committed := [["x"]], pending := [] } [["a"], ["b"]]
      (fun j => decide (j = 2))).1.committed = [["x"]] ∧
    (writeChunk { committed := [["x"]], pending := [] } [["a"], ["b"]]
      (fun j => decide (j = 2))).2 = false := by
  exact (batch_all_or_nothing { committed := [["x"]], pending := [] } [["a"], ["b"]]
    (fun j => decide (j = 2)) rfl).1 ⟨2, by decide, by decide, by decide⟩

/-- Claim C9: the cumulative counter reported at the end of a run counts
exactly the rows of the batches whose commit succeeded: starting from an empty
target, the final value of total equals the number of rows committed in the
target, whatever the insert faults. -/
theorem total_counts_committed_rows (B : Nat) (insFails : Nat → Nat → Bool) (src : List Row) :
    (migrateLoop B insFails src { committed := [], pending := [] }).total =
      (migrateLoop B insFails src { committed := [], pending := [] }).target.committed.length := by
  have hloop := runLoop_none_eq B insFails src 1 0 { committed := [], pending := [] } rfl
  rw [migrateLoop, hloop]
  simp

/-- Claim C10: for every finite source cursor the transfer loop terminates:
with fuel bounded by the number of remaining rows plus one it reaches the same
result as the loop itself, the loop exits immediately when a fetch returns an
empty batch, and each iteration consumes at most chunk_size rows. -/
theorem transfer_loop_terminates (B : Nat) (insFails : Nat → Nat → Bool) (src : List Row) :
    runLoopFuel (src.length + 1) B none insFails 1 0 src { committed := [], pending := [] }
      = some (migrateLoop B insFails src { committed := [], pending := [] }) ∧
    (src.take B = [] →
      migrateLoop B insFails src { committed := [], pending := [] } =
        { target := { committed := [], pending := [] }, total := 0, chunks := [],
          outcomes := [], readError := false }) ∧
    (∀ rows ∈ (migrateLoop B insFails src { committed := [], pending := [] }).chunks,
      rows.length ≤ B) := by
  have hloop := runLoop_none_eq B insFails src 1 0 { committed := [], pending := [] } rfl
  refine ⟨?_, ?_, ?_⟩
  · rw [migrateLoop]
    exact runLoopFuel_sufficient (src.length + 1) B none insFails 1 0 src _ (by omega)
  · intro hr
    rw [migrateLoop, hloop, goodRows_nil _ _ hr, chunksOf_nil hr, outcomesOf_nil _ _ hr]
    simp
  · intro rows hmem
    rw [migrateLoop, hloop] at hmem
    dsimp only at hmem
    exact (chunksOf_mem B src rows hmem).2

/-- Witness for transfer_loop_terminates at an empty source. -/
theorem transfer_loop_terminates_witness :
    migrateLoop 2 (fun _ _ => false) [] { committed := [], pending := [] } =
      { target := { committed := [], pending := [] }, total := 0, chunks := [],
        outcomes := [], readError := false } ∧
    runLoopFuel 1 2 none (fun _ _ => false) 1 0 [] { committed := [], pending := [] }
      = some (migrateLoop 2 (fun _ _ => false) [] { committed := [], pending := [] }) := by
  exact ⟨(transfer_loop_terminates 2 (fun _ _ => false) []).2.1 rfl,
    (transfer_loop_terminates 2 (fun _ _ => false) []).1⟩

/-- Claim C3: a write failure in one batch is non-fatal: when the insert
faults are confined to batch k, whose first insert fails, and batch k is among
the N = ceil(R/B) batches, the run still attempts all N batches, commits the
other N - 1, rolls back exactly one, and the process exits with status
zero. -/
theorem single_failed_batch_forward_progress (f : Faults) (cat : List CatColumn)
    (ss st ts tt : String) (B : Nat) (src : List Row) (k : Nat)
    (hB : 1 ≤ B)
    (h1 : f.srcConnFails = false) (h2 : f.tgtConnFails = false) (h3 : f.introFails = false)
    (h4 : f.readFailAt = none)
    (htable : introspectColumns cat ss st ≠ [])
    (honly : ∀ c j, f.insFails c j = true → c = k)
    (hfail : f.insFails k 1 = true)
    (hk1 : 1 ≤ k) (hkN : k ≤ (src.length + B - 1) / B) :
    (migrateTable f cat ss st ts tt B src).exitCode = 0 ∧
    (migrateTable f cat ss st ts tt B src).chunksAttempted = (src.length + B - 1) / B ∧
    (migrateTable f cat ss st ts tt B src).commits + 1 = (src.length + B - 1) / B ∧
    (migrateTable f cat ss st ts tt B src).rollbacks = 1 := by
  have hloop := runLoop_none_eq B f.insFails src 1 0 { committed := [], pending := [] } rfl
  have hN := chunksOf_length B hB src
  have hc0 : k ≤ 0 + (chunksOf B src).length := by rw [hN]; omega
  have hcount := outcomesOf_count_true B f.insFails k honly hfail src 0 (by omega) hc0
  have hlen := outcomesOf_length B f.insFails 0 src
  have hsum := bool_count_sum (outcomesOf B f.insFails 0 src)
  have hmt : migrateTable f cat ss st ts tt B src =
      { exitCode := 0, opened := allHandles, closed := closeOrder, errorStage := none,
        chunksAttempted := (chunksOf B src).length,
        commits := (outcomesOf B f.insFails 0 src).count true,
        rollbacks := (outcomesOf B f.insFails 0 src).count false,
        total := (goodRows B f.insFails 0 src).length,
        target := { committed := goodRows B f.insFails 0 src, pending := [] } } := by
    rw [migrateTable, h1, h2, h3, h4]
    rw [if_neg (by simp), if_neg (by simp), if_neg (by simp), if_neg htable]
    rw [hloop]
    simp
  refine ⟨?_, ?_, ?_, ?_⟩
  · rw [hmt]
  · rw [hmt]
    show (chunksOf B src).length = (src.length + B - 1) / B
    exact hN
  · rw [hmt]
    show (outcomesOf B f.insFails 0 src).count true + 1 = (src.length + B - 1) / B
    rw [← hN]
    exact hcount
  · rw [hmt]
    show (outcomesOf B f.insFails 0 src).count false = 1
    omega

/-- Witness for single_failed_batch_forward_progress: two one-row batches with
the first batch failing give two attempts, one commit, one rollback and exit
status zero. -/
theorem single_failed_batch_forward_progress_witness :
    (migrateTable
      { srcConnFails := false, tgtConnFails := false, introFails := false,
        readFailAt := none, insFails := fun c _ => decide (c = 1) }
      demoCatalog "s" "t" "s" "t2" 1 [["a"], ["b"]]).chunksAttempted = 2 ∧
    (migrateTable
      { srcConnFails := false, tgtConnFails := false, introFails := false,
        readFailAt := none, insFails := fun c _ => decide (c = 1) }
      demoCatalog "s" "t" "s" "t2" 1 [["a"], ["b"]]).commits + 1 = 2 ∧
    (migrateTable
      { srcConnFails := false, tgtConnFails := false, introFails := false,
        readFailAt := none, insFails := fun c _ => decide (c = 1) }
      demoCatalog "s" "t" "s" "t2" 1 [["a"], ["b"]]).rollbacks = 1 ∧
    (migrateTable
      { srcConnFails := false, tgtConnFails := false, introFails := false,
        readFailAt := none, insFails := fun c _ => decide (c = 1) }
      demoCatalog "s" "t" "s" "t2" 1 [["a"], ["b"]]).exitCode = 0 := by
  have h := single_failed_batch_forward_progress
    { srcConnFails := false, tgtConnFails := false, introFails := false,
      readFailAt := none, insFails := fun c _ => decide (c = 1) }
    demoCatalog "s" "t" "s" "t2" 1 [["a"], ["b"]] 1 (by decide) rfl rfl rfl rfl
    (by decide) (fun c j hh => of_decide_eq_true hh) (by decide) (by decide) (by decide)
  exact ⟨h.2.1, h.2.2.1, h.2.2.2, h.1⟩

/-- Claim C4: if opening the source or target connection, or the schema
introspection query, fails, then zero batches are attempted, zero commits are
issued, nothing is committed in the target, and the process exits with a
non-zero status. -/
theorem setup_failure_aborts (f : Faults) (cat : List CatColumn) (ss st ts tt : String)
    (B : Nat) (src : List Row)
    (hf : f.srcConnFails = true ∨ f.tgtConnFails = true ∨ f.introFails = true) :
    (migrateTable f cat ss st ts tt B src).chunksAttempted = 0 ∧
    (migrateTable f cat ss st ts tt B src).commits = 0 ∧
    (migrateTable f cat ss st ts tt B src).target.committed = [] ∧
    (migrateTable f cat ss st ts tt B src).exitCode ≠ 0 := by
  rw [migrateTable]
  rcases hf with h | h | h
  · rw [h]
    simp
  · cases hsc : f.srcConnFails
    · rw [h]
      simp
    · simp
  · cases hsc : f.srcConnFails
    · cases htc : f.tgtConnFails
      · rw [h]
        simp
      · simp
    · simp

/-- Witness for setup_failure_aborts at a failing source connection. -/
theorem setup_failure_aborts_witness :
    (migrateTable
      { srcConnFails := true, tgtConnFails := false, introFails := false,
        readFailAt := none, insFails := fun _ _ => false }
      demoCatalog "s" "t" "s" "t2" 5 [["1"]]).commits = 0 ∧
    (migrateTable
      { srcConnFails := true, tgtConnFails := false, introFails := false,
        readFailAt := none, insFails := fun _ _ => false }
      demoCatalog "s" "t" "s" "t2" 5 [["1"]]).exitCode ≠ 0 := by
  have h := setup_failure_aborts
    { srcConnFails := true, tgtConnFails := false, introFails := false,
      readFailAt := none, insFails := fun _ _ => false }
    demoCatalog "s" "t" "s" "t2" 5 [["1"]] (Or.inl rfl)
  exact ⟨h.2.1, h.2.2.2⟩

/-- Claim C5 counterexample: in a run whose first fetchmany call raises, all
four handles have been opened, the process exits with status 1, and no handle
is closed, so the claim that every opened handle is closed on every exit path
fails at this input. -/
theorem handles_not_closed_on_read_failure :
    (migrateTable
      { srcConnFails := false, tgtConnFails := false, introFails := false,
        readFailAt := some 1, insFails := fun _ _ => false }
      demoCatalog "s" "t" "s" "t2" 1 [["1"]]).opened = allHandles ∧
    (migrateTable
      { srcConnFails := false, tgtConnFails := false, introFails := false,
        readFailAt := some 1, insFails := fun _ _ => false }
      demoCatalog "s" "t" "s" "t2" 1 [["1"]]).closed = [] ∧
    (migrateTable
      { srcConnFails := false, tgtConnFails := false, introFails := false,
        readFailAt := some 1, insFails := fun _ _ => false }
      demoCatalog "s" "t" "s" "t2" 1 [["1"]]).exitCode = 1 ∧
    ¬ (∀ h ∈ (migrateTable
      { srcConnFails := false, tgtConnFails := false, introFails := false,
        readFailAt := some 1, insFails := fun _ _ => false }
      demoCatalog "s" "t" "s" "t2" 1 [["1"]]).opened,
      h ∈ (migrateTable
      { srcConnFails := false, tgtConnFails := false, introFails := false,
        readFailAt := some 1, insFails := fun _ _ => false }
      demoCatalog "s" "t" "s" "t2" 1 [["1"]]).closed) := by
  have hrl : runLoop 1 (some 1) (fun _ _ => false) 1 0 [["1"]] { committed := [], pending := [] } =
      { target := { committed := [], pending := [] }, total := 0, chunks := [],
        outcomes := [], readError := true } := by
    rw [runLoop]
    simp
  have hmt : migrateTable
      { srcConnFails := false, tgtConnFails := false, introFails := false,
        readFailAt := some 1, insFails := fun _ _ => false }
      demoCatalog "s" "t" "s" "t2" 1 [["1"]] =
      { exitCode := 1, opened := allHandles, closed := [], errorStage := some "fetch",
        chunksAttempted := 0, commits := 0, rollbacks := 0, total := 0,
        target := { committed := [], pending := [] } } := by
    rw [migrateTable]
    rw [if_neg (by decide), if_neg (by decide), if_neg (by decide), if_neg (by decide)]
    dsimp only
    rw [hrl]
    simp
  rw [hmt]
  exact ⟨rfl, rfl, rfl, by decide⟩

/-- Claim C5 amended: the four handles are all closed exactly on the exit
paths on which migrate_table returns normally (exit status zero, covering
successful completion and completion with failed batches); on every exception
path - fatal setup, missing table, or a mid-stream read failure - the process
exits with a non-zero status and no handle is closed. -/
theorem handles_closed_only_on_normal_exit (f : Faults) (cat : List CatColumn)
    (ss st ts tt : String) (B : Nat) (src : List Row) :
    ((migrateTable f cat ss st ts tt B src).exitCode = 0 →
      (migrateTable f cat ss st ts tt B src).opened = allHandles ∧
      (migrateTable f cat ss st ts tt B src).closed = closeOrder ∧
      ∀ h ∈ (migrateTable f cat ss st ts tt B src).opened,
        h ∈ (migrateTable f cat ss st ts tt B src).closed) ∧
    ((migrateTable f cat ss st ts tt B src).exitCode ≠ 0 →
      (migrateTable f cat ss st ts tt B src).closed = []) := by
  rw [migrateTable]
  cases hsc : f.srcConnFails
  case true => simp
  case false =>
  cases htc : f.tgtConnFails
  case true => simp
  case false =>
  cases hin : f.introFails
  case true => simp
  case false =>
  have hfb : ¬(false = true) := by simp
  rw [if_neg hfb, if_neg hfb, if_neg hfb]
  by_cases hcols : introspectColumns cat ss st = []
  · simp [hcols]
  · rw [if_neg hcols]
    dsimp only
    cases hre : (runLoop B f.readFailAt f.insFails 1 0 src { committed := [], pending := [] }).readError
    · rw [if_neg (by simp)]
      constructor
      · intro _
        refine ⟨rfl, rfl, ?_⟩
        show ∀ h ∈ allHandles, h ∈ closeOrder
        decide
      · intro hne
        exact absurd rfl hne
    · rw [if_pos rfl]
      constructor
      · intro h0
        simp at h0
      · intro _
        rfl

/-- Witness for handles_closed_only_on_normal_exit: a fault-free run closes
the handles in the source close order. -/
theorem handles_closed_only_on_normal_exit_witness :
    (migrateTable noFaults demoCatalog "s" "t" "s" "t2" 1 [["1"]]).closed = closeOrder := by
  have hloop := runLoop_none_eq 1 (fun _ _ => false) [["1"]] 1 0
    { committed := [], pending := [] } rfl
  have hexit : (migrateTable noFaults demoCatalog "s" "t" "s" "t2" 1 [["1"]]).exitCode = 0 := by
    rw [migrateTable]
    simp only [noFaults]
    rw [if_neg (by simp), if_neg (by simp), if_neg (by simp), if_neg (by decide)]
    rw [hloop]
    simp
  exact ((handles_closed_only_on_normal_exit noFaults demoCatalog "s" "t" "s" "t2" 1
    [["1"]]).1 hexit).2.1

/-- Claim C6 counterexample: when the named source table does not exist, the
introspection query does not fail - it returns an empty column list and the
run proceeds; the exception that aborts the run is raised later by the
streaming select, not by the introspection step, so the claim that the
introspection step itself fails is false at this input. -/
theorem missing_table_no_schema_error :
    introspectColumns demoCatalog "s" "missing" = [] ∧
    (migrateTable noFaults demoCatalog "s" "missing" "s" "t2" 5 [["1"]]).errorStage
      = some "streaming_select" ∧
    ¬ (migrateTable noFaults demoCatalog "s" "missing" "s" "t2" 5 [["1"]]).errorStage
      = some "introspection_query" := by
  decide

/-- Claim C6 amended: when the named source table does not exist in the
source schema, the introspection query succeeds and returns an empty column
list - there is no distinct SchemaError - and the run proceeds to the
streaming select, which fails because the relation does not exist; that
failure is caught by the top-level handler, logged, and ends the process with
exit status 1 after zero batches and zero commits, so it is not silently
swallowed. -/
theorem missing_table_empty_introspection (f : Faults) (cat : List CatColumn)
    (ss st ts tt : String) (B : Nat) (src : List Row)
    (h1 : f.srcConnFails = false) (h2 : f.tgtConnFails = false) (h3 : f.introFails = false)
    (hmiss : ∀ c ∈ cat, ¬(c.table_schema = ss ∧ c.table_name = st)) :
    introspectColumns cat ss st = [] ∧
    (migrateTable f cat ss st ts tt B src).exitCode = 1 ∧
    (migrateTable f cat ss st ts tt B src).errorStage = some "streaming_select" ∧
    (migrateTable f cat ss st ts tt B src).chunksAttempted = 0 ∧
    (migrateTable f cat ss st ts tt B src).commits = 0 := by
  have hfil : (cat.filter fun c => c.table_schema == ss && c.table_name == st) = [] := by
    apply List.filter_eq_nil_iff.mpr
    intro c hc hcc
    simp only [Bool.and_eq_true, beq_iff_eq] at hcc
    exact hmiss c hc hcc
  have hcols : introspectColumns cat ss st = [] := by
    rw [introspectColumns, introspectRows, hfil]
    rfl
  have hmt : migrateTable f cat ss st ts tt B src =
      { exitCode := 1, opened := allHandles, closed := [], errorStage := some "streaming_select",
        chunksAttempted := 0, commits := 0, rollbacks := 0, total := 0,
        target := { committed := [], pending := [] } } := by
    rw [migrateTable, h1, h2, h3]
    rw [if_neg (by simp), if_neg (by simp), if_neg (by simp), if_pos hcols]
  exact ⟨hcols, by rw [hmt], by rw [hmt], by rw [hmt], by rw [hmt]⟩

/-- Witness for missing_table_empty_introspection at a concrete catalog that
has no row for the requested table. -/
theorem missing_table_empty_introspection_witness :
    introspectColumns demoCatalog "s" "absent" = [] ∧
    (migrateTable noFaults demoCatalog "s" "absent" "s" "t2" 3 []).exitCode = 1 := by
  have h := missing_table_empty_introspection noFaults demoCatalog "s" "absent" "s" "t2" 3 []
    rfl rfl rfl (by decide)
  exact ⟨h.1, h.2.1⟩

/-- Claim C7: schema introspection is deterministic and idempotent: the
embedded query is a pure function of the catalog, so repeated runs return the
same list; the result projects the column names of exactly the catalog rows
matching the schema and table, in an order sorted by ordinal position; and
when the ordinal positions of the matching rows are pairwise distinct, any
ordinal-sorted reading of the matching rows yields the identical column-name
list, so the order is uniquely determined. -/
theorem introspection_sorted_deterministic (cat : List CatColumn) (ss st : String) :
    introspectColumns cat ss st = (introspectRows cat ss st).map (fun c => c.column_name) ∧
    (introspectRows cat ss st).Perm
      (cat.filter fun c => c.table_schema == ss && c.table_name == st) ∧
    (introspectRows cat ss st).Pairwise byOrdinal ∧
    (∀ l2 : List CatColumn,
      l2.Perm (cat.filter fun c => c.table_schema == ss && c.table_name == st) →
      l2.Pairwise byOrdinal →
      ((cat.filter fun c => c.table_schema == ss && c.table_name == st).map
        fun c => c.ordinal_position).Nodup →
      l2.map (fun c => c.column_name) = introspectColumns cat ss st) := by
  have hperm1 : (introspectRows cat ss st).Perm
      (cat.filter fun c => c.table_schema == ss && c.table_name == st) :=
    List.perm_insertionSort byOrdinal _
  have hsort1 : (introspectRows cat ss st).Pairwise byOrdinal :=
    List.sorted_insertionSort byOrdinal _
  refine ⟨rfl, hperm1, hsort1, ?_⟩
  intro l2 hperm hsort hnodup
  have hp2 : l2.Perm (introspectRows cat ss st) := hperm.trans hperm1.symm
  have hnod2 : (l2.map fun c => c.ordinal_position).Nodup :=
    (List.Perm.nodup_iff (List.Perm.map _ hperm)).mpr hnodup
  have heq := sorted_perm_eq_of_nodup_keys l2 (introspectRows cat ss st) hp2 hsort hsort1 hnod2
  rw [introspectColumns, ← heq]

/-- Witness for introspection_sorted_deterministic: a two-column catalog
stored out of order introspects to the ordinal-sorted name list, and the
sorted reading of the matching rows gives the same list. -/
theorem introspection_sorted_deterministic_witness :
    ([{ table_schema := "s", table_name := "t", column_name := "id", ordinal_position := 1 },
      { table_schema := "s", table_name := "t", column_name := "name", ordinal_position := 2 }] :
      List CatColumn).map (fun c => c.column_name) =
      introspectColumns
        [{ table_schema := "s", table_name := "t", column_name := "name", ordinal_position := 2 },
         { table_schema := "s", table_name := "t", column_name := "id", ordinal_position := 1 }]
        "s" "t" := by
  exact (introspection_sorted_deterministic
    [{ table_schema := "s", table_name := "t", column_name := "name", ordinal_position := 2 },
     { table_schema := "s", table_name := "t", column_name := "id", ordinal_position := 1 }]
    "s" "t").2.2.2
    [{ table_schema := "s", table_name := "t", column_name := "id", ordinal_position := 1 },
     { table_schema := "s", table_name := "t", column_name := "name", ordinal_position := 2 }]
    (by decide) (by decide) (by decide)

/-- Claim C8 counterexample: column names are interpolated into the SQL text
without quoting, so one column named with a comma produces the same statement
text as two ordinary columns, and differs from the statement in which every
identifier is structurally quoted; the claim that every interpolated
identifier is quoted is false at this input. -/
theorem column_names_not_quoted :
    selectSql "s" "t" ["a, b"] = selectSql "s" "t" ["a", "b"] ∧
    selectSql "s" "t" ["a, b"] ≠ selectSqlSpecQuoted "s" "t" ["a, b"] := by
  decide

/-- Claim C8 amended: row values are passed only as bound parameters and the
catalog query binds the schema and table names as parameters of a fixed
statement text; the insert statement text is independent of the row values;
the schema and table names interpolated into the select and insert texts are
wrapped in double quotes; but the column names are interpolated without any
quoting. -/
theorem sql_params_bound_schema_table_quoted (schema table : String)
    (columns : List String) (row : Row) :
    catalogQueryCall schema table = (catalogQuerySql, [schema, table]) ∧
    insertCall schema table columns row = (insertSql schema table columns, row) ∧
    selectSql schema table columns =
      "SELECT " ++ colsStr columns ++ " FROM " ++ quoteIdent schema ++ "." ++ quoteIdent table ∧
    insertSql schema table columns =
      "INSERT INTO " ++ quoteIdent schema ++ "." ++ quoteIdent table ++ " (" ++ colsStr columns ++ ") VALUES (" ++ placeholders columns.length ++ ")" ∧
    colsStr columns = String.intercalate ", " columns :=
  ⟨rfl, rfl, selectSql_quoted schema table columns, insertSql_quoted schema table columns, rfl⟩

end DataTransfer
